import Mathlib

/-
Verification development for the Hume EVI / Twilio Media Streams bridge
(src/hume_twilio_bridge.py).

The audio layer embeds the CPython audioop primitives that the source
calls (audioop.ulaw2lin, audioop.lin2ulaw, audioop.ratecv with width 2,
one channel, default weights 1 and 0), operating on byte lists (Nat,
one entry per byte) and 16-bit samples (Int).  The session layer embeds
HumeTwilioBridge: its state, the two message handlers, the AI-side
receive loop, and the main run loop, with Python exceptions modelled by
an explicit Fallible result type and base64 strings modelled by the B64
type (a base64 text either decodes to a byte list or raises).
-/

/-- Result of a Python call that can raise: either a value or an exception. -/
inductive Fallible (α : Type) where
  | ok (val : α)
  | exn
deriving DecidableEq

/-- A base64 payload string as received from JSON: either it decodes to the
given bytes, or base64.b64decode raises on it.  The empty string decodes to
the empty byte list, and every string decoding to the empty byte list is the
empty string, so Python truthiness of the string is decidable from this view. -/
inductive B64 where
  | valid (bytes : List Nat)
  | malformed
deriving DecidableEq

/-- base64.b64decode: yields the bytes or raises. -/
def b64decode : B64 → Fallible (List Nat)
  | .valid bs => .ok bs
  | .malformed => .exn

/-- base64.b64encode (composed with .decode()): total on byte lists. -/
def b64encode (bs : List Nat) : B64 := .valid bs

/-- Python truthiness of the base64 string: the empty string is falsy,
every other string (including undecodable ones) is truthy. -/
def b64Truthy : B64 → Bool
  | .valid bs => !bs.isEmpty
  | .malformed => true

/-- Modelled from CPython audioop: decode of one mu-law byte to a 16-bit
linear sample (the st_ulaw2linear16 table, given by its generating formula:
complement the byte, rebuild mantissa with bias 0x84, shift by the segment,
apply the sign). -/
def ulaw2lin (u : Nat) : Int :=
  let uv := 255 - u % 256
  let t : Nat := ((uv % 16) * 8 + 132) <<< ((uv / 16) % 8)
  if 128 ≤ uv then 132 - (t : Int) else (t : Int) - 132

/-- Segment end table from CPython audioop (seg_uend). -/
def seg_uend : List Nat := [63, 127, 255, 511, 1023, 2047, 4095, 8191]

/-- CPython audioop search: index of the first table entry that is at least
val, or 8 when none is. -/
def segSearch (val : Nat) : Nat :=
  ((seg_uend).findIdx? (fun x => val ≤ x)).getD 8

/-- Modelled from CPython audioop st_linear2ulaw: encode a 16-bit linear
sample to one mu-law byte (arithmetic shift right by 2, take sign and
magnitude, clip at 8159, add bias 33, find the segment, assemble and
complement). -/
def lin2ulaw (pcm : Int) : Nat :=
  let p := Int.ediv pcm 4
  let mask : Nat := if p < 0 then 127 else 255
  let mag0 : Nat := if p < 0 then (-p).toNat else p.toNat
  let mag : Nat := min mag0 8159 + 33
  let seg := segSearch mag
  if 8 ≤ seg then Nat.xor 127 mask
  else Nat.xor ((seg <<< 4) ||| ((mag >>> (seg + 1)) &&& 15)) mask

/-- Reading a 16-bit little-endian sample: interpret the unsigned value as
two-complement signed. -/
def toSigned16 (u : Nat) : Int :=
  if u < 32768 then (u : Int) else (u : Int) - 65536

/-- Decode a byte buffer into 16-bit native-endian samples; audioop raises
when the byte count is not a whole number of two-byte frames. -/
def bytesToSamples : List Nat → Fallible (List Int)
  | [] => .ok []
  | lo :: hi :: rest =>
    match bytesToSamples rest with
    | .ok s => .ok (toSigned16 (lo % 256 + 256 * (hi % 256)) :: s)
    | .exn => .exn
  | [_] => .exn

/-- Encode one 16-bit sample as two little-endian bytes (C int16 cast:
two-complement wrap). -/
def sampleToBytes (s : Int) : List Nat :=
  let u := (Int.emod s 65536).toNat
  [u % 256, u / 256]

/-- Encode a sample list as a byte buffer. -/
def samplesToBytes : List Int → List Nat
  | [] => []
  | s :: rest => sampleToBytes s ++ samplesToBytes rest

/-- The ratecv output interpolation
cur_o = (prev_i * d + cur_i * (outrate - d)) / outrate.
The C code computes this quotient in double precision and truncates toward
zero; for the 16-bit magnitudes involved the double quotient is exactly the
rational quotient rounded, and on every input reached in this development the
division is exact, so truncating integer division is used. -/
def interp (prev cur d outrate : Int) : Int :=
  Int.tdiv (prev * d + cur * (outrate - d)) outrate

/-- The inner write loop of CPython audioop ratecv: while d is nonnegative,
emit one interpolated sample and decrease d by inrate.  The loop runs at most
d + 1 times when inrate is at least 1; fuel is structural recursion budget
set to that bound at the call site. -/
def emitLoop (fuel : Nat) (prev cur : Int) (inrate outrate : Nat) (d : Int) :
    List Int × Int :=
  match fuel with
  | 0 => ([], d)
  | f + 1 =>
    if 0 ≤ d then
      let r := emitLoop f prev cur inrate outrate (d - (inrate : Int))
      (interp prev cur d (outrate : Int) :: r.1, r.2)
    else ([], d)

/-- The main loop of CPython audioop ratecv (width 2, one channel, weights
1 and 0, state None): repeatedly read one sample (prev becomes the old
current sample, d increases by outrate), then while d is nonnegative write
interpolated samples (d decreases by inrate each). -/
def ratecvLoop (inrate outrate : Nat) : Int → Int → List Int → List Int
  | _, _, [] => []
  | prev, d, cur :: rest =>
    let d1 := d + (outrate : Int)
    if 0 ≤ d1 then
      let p := emitLoop (d1.toNat + 1) prev cur inrate outrate d1
      p.1 ++ ratecvLoop inrate outrate cur p.2 rest
    else
      ratecvLoop inrate outrate cur d1 rest

/-- CPython audioop ratecv on a sample list: reduce the rates by their gcd,
start with prev = cur = 0 and d = -outrate. -/
def ratecv (inrate outrate : Nat) (samples : List Int) : List Int :=
  let g := Nat.gcd inrate outrate
  ratecvLoop (inrate / g) (outrate / g) 0 (-((outrate / g : Nat) : Int)) samples

/-- ulaw_to_pcm from the source: audioop.ulaw2lin(data, 2), one mu-law byte
becomes one 16-bit sample, written out as bytes. -/
def ulaw_to_pcm (data : List Nat) : List Nat :=
  samplesToBytes (data.map ulaw2lin)

/-- pcm_to_ulaw from the source: audioop.lin2ulaw(data, 2); raises when the
byte count is odd. -/
def pcm_to_ulaw (data : List Nat) : Fallible (List Nat) :=
  match bytesToSamples data with
  | .ok s => .ok (s.map lin2ulaw)
  | .exn => .exn

/-- resample from the source: audioop.ratecv(data, 2, 1, from_rate, to_rate,
None)[0]; raises when the byte count is odd. -/
def resample (data : List Nat) (from_rate to_rate : Nat) : Fallible (List Nat) :=
  match bytesToSamples data with
  | .ok s => .ok (samplesToBytes (ratecv from_rate to_rate s))
  | .exn => .exn

/-- The round trip of the spec: mu-law bytes up to 48 kHz linear PCM and back
down to mu-law, through the exact pipeline the bridge uses in its two
directions. -/
def muRoundtrip (u : List Nat) : Fallible (List Nat) :=
  match resample (ulaw_to_pcm u) 8000 48000 with
  | .ok up =>
    match resample up 48000 8000 with
    | .ok down => pcm_to_ulaw down
    | .exn => .exn
  | .exn => .exn

/-- Session state of HumeTwilioBridge: the fields set in __init__ and
mutated by the handlers.  hume_connected models whether self.hume_ws is a
connection object (truthy) rather than None. -/
structure St where
  stream_sid : Option String := none
  call_sid : Option String := none
  config_id : String := ""
  running : Bool := false
  hume_connected : Bool := false
deriving DecidableEq

/-- An inbound Twilio Media Streams JSON message, seen through the dict
accesses the handler performs: message.get("event"),
message.get("streamSid"), message.get("start", {}).get("callSid"),
message.get("media", {}).get("payload"). -/
structure TwilioMsg where
  event : Option String := none
  streamSid : Option String := none
  callSid : Option String := none
  payload : Option B64 := none
deriving DecidableEq

/-- An inbound Hume EVI JSON message, seen through the dict accesses the
handler performs: message.get("type") and message.get("data"). -/
structure HumeMsg where
  msgType : Option String := none
  data : Option B64 := none
deriving DecidableEq

/-- A message sent to the Hume socket. -/
inductive HumeOut where
  | session_settings (encoding : String) (sample_rate : Nat) (channels : Nat)
  | audio_input (data : B64)
deriving DecidableEq

/-- A message sent to the Twilio socket. -/
inductive TwilioOut where
  | media (streamSid : String) (payload : B64)
deriving DecidableEq

/-- The one-time session settings message sent by connect_hume. -/
def sessionSettingsMsg : HumeOut :=
  .session_settings ("linear16") 48000 1

/-- HumeTwilioBridge.handle_twilio_message.  A start event stores streamSid
and callSid; a media event with a truthy payload and a connected Hume socket
decodes the payload (an exception here propagates to the caller), transcodes
mu-law 8 kHz to linear 48 kHz and sends audio_input; a stop event clears the
running flag; anything else is ignored. -/
def handle_twilio_message (s : St) (m : TwilioMsg) :
    Fallible (St × List HumeOut) :=
  if m.event = some ("start") then
    .ok ({ s with stream_sid := m.streamSid, call_sid := m.callSid }, [])
  else if m.event = some ("media") then
    match m.payload with
    | some p =>
      if b64Truthy p && s.hume_connected then
        match b64decode p with
        | .exn => .exn
        | .ok mulaw =>
          match resample (ulaw_to_pcm mulaw) 8000 48000 with
          | .exn => .exn
          | .ok pcm => .ok (s, [.audio_input (b64encode pcm)])
      else .ok (s, [])
    | none => .ok (s, [])
  else if m.event = some ("stop") then
    .ok ({ s with running := false }, [])
  else .ok (s, [])

/-- HumeTwilioBridge.handle_hume_message.  An audio_output message with
truthy data and a truthy stream_sid transcodes linear 48 kHz to mu-law
8 kHz inside a try/except and sends one Twilio media frame; a conversion
error is logged and the frame dropped.  All other message types only log,
so they leave the state unchanged and send nothing. -/
def handle_hume_message (s : St) (m : HumeMsg) : St × List TwilioOut :=
  if m.msgType = some ("audio_output") then
    match m.data, s.stream_sid with
    | some d, some sid =>
      if b64Truthy d && !(sid == "") then
        match b64decode d with
        | .exn => (s, [])
        | .ok pcm =>
          match resample pcm 48000 8000 with
          | .exn => (s, [])
          | .ok pcm8 =>
            match pcm_to_ulaw pcm8 with
            | .exn => (s, [])
            | .ok mulaw => (s, [.media sid (b64encode mulaw)])
      else (s, [])
    | _, _ => (s, [])
  else (s, [])

/-- HumeTwilioBridge.receive_hume_messages: iterate over inbound Hume
messages; a json.loads failure raises out of the async-for body and is
caught by the except clause around the whole loop, ending the loop (the
list end models the connection closing). -/
def receive_hume_messages (s : St) :
    List (Fallible HumeMsg) → St × List TwilioOut
  | [] => (s, [])
  | .exn :: _ => (s, [])
  | .ok m :: rest =>
    let r := handle_hume_message s m
    let r2 := receive_hume_messages r.1 rest
    (r2.1, r.2 ++ r2.2)

/-- One outcome of awaiting twilio_ws.receive_text with a timeout:
a text frame (whose json.loads either yields a message or raises),
an asyncio.TimeoutError, or any other exception (socket closed or errored). -/
inductive TwRecv where
  | msg (w : Fallible TwilioMsg)
  | timeout
  | fail
deriving DecidableEq

/-- The while loop inside HumeTwilioBridge.run: while the running flag is
set, await one receive outcome; a timeout continues, any exception (from
receive, json.loads, or the handler) is logged and breaks the loop. -/
def runLoop (s : St) : List TwRecv → St × List HumeOut
  | [] => (s, [])
  | e :: rest =>
    if s.running then
      match e with
      | .timeout => runLoop s rest
      | .fail => (s, [])
      | .msg .exn => (s, [])
      | .msg (.ok m) =>
        match handle_twilio_message s m with
        | .exn => (s, [])
        | .ok (s2, outs) =>
          let r := runLoop s2 rest
          (r.1, outs ++ r.2)
    else (s, [])

/-- Externally visible actions of the telephony-loop side of a session, in
order.  Frames sent to the Twilio socket originate in the concurrent Hume
receive task and are covered by receive_hume_messages. -/
inductive Act where
  | humeConnect
  | humeSend (m : HumeOut)
  | twilioAccept
  | twilioSend (m : TwilioOut)
  | humeClose
deriving DecidableEq

/-- The state built by HumeTwilioBridge.__init__. -/
def initSt (cfg : String) : St :=
  { stream_sid := none, call_sid := none, config_id := cfg,
    running := false, hume_connected := false }

/-- HumeTwilioBridge.run as the ordered action trace of the telephony loop:
if connect_hume fails (an exception anywhere in its try block, reported as
False), return at once, never accepting the Twilio socket; otherwise the
connection is made and session settings sent (inside connect_hume), the
Twilio socket is accepted, and the receive loop runs.  The final teardown
(cancel of the Hume task, close of the Hume socket) follows the loop exit
and is not part of the modelled trace. -/
def run (cfg : String) (connectOk : Bool) (evs : List TwRecv) :
    List Act × St :=
  if connectOk then
    let s0 : St := { initSt cfg with hume_connected := true, running := true }
    let r := runLoop s0 evs
    (Act.humeConnect :: Act.humeSend sessionSettingsMsg ::
      Act.twilioAccept :: r.2.map Act.humeSend, r.1)
  else ([], initSt cfg)

/-- The frame, if any, that one Hume message contributes to the Twilio side. -/
def humeFrameOut (s : St) (m : HumeMsg) : Option TwilioOut :=
  (handle_hume_message s m).2.head?

/-- The frame, if any, that one Twilio message contributes to the Hume side. -/
def twFrameOut (s : St) (m : TwilioMsg) : Option HumeOut :=
  match handle_twilio_message s m with
  | .ok (_, outs) => outs.head?
  | .exn => none

/-- A Twilio message whose payload, when present, does not raise on decode. -/
def decodablePayload (m : TwilioMsg) : Prop :=
  ∀ bs, m.payload = some bs → bs ≠ B64.malformed

/-- Concrete session states and messages used by witnesses and
counterexamples. -/
def stMZ : St :=
  { stream_sid := some ("MZ1"), call_sid := none, config_id := "",
    running := true, hume_connected := true }

def stNoSid : St :=
  { stream_sid := none, call_sid := none, config_id := "",
    running := true, hume_connected := true }

def msgAudioGood : HumeMsg :=
  { msgType := some ("audio_output"), data := some (B64.valid [0, 0]) }

def msgAudioBad : HumeMsg :=
  { msgType := some ("audio_output"), data := some B64.malformed }

def mediaGood : TwilioMsg :=
  { event := some ("media"), payload := some (B64.valid [0]) }

def mediaBad : TwilioMsg :=
  { event := some ("media"), payload := some B64.malformed }

def startMsg : TwilioMsg :=
  { event := some ("start"), streamSid := some ("MZ1"),
    callSid := some ("CA1") }

def stopMsg : TwilioMsg :=
  { event := some ("stop") }

theorem samplesToBytes_length (l : List Int) :
    (samplesToBytes l).length = 2 * l.length := by
  induction l with
  | nil => rfl
  | cons s rest ih =>
    simp only [samplesToBytes, sampleToBytes, List.cons_append, List.nil_append,
      List.length_cons, ih]
    omega

theorem bytesToSamples_even : ∀ (bs : List Nat), bs.length % 2 = 0 →
    ∃ s, bytesToSamples bs = .ok s ∧ bs.length = 2 * s.length
  | [], _ => ⟨[], rfl, rfl⟩
  | [a], h => by simp at h
  | a :: b :: rest, h => by
    obtain ⟨s, hs, hl⟩ := bytesToSamples_even rest
      (by simp only [List.length_cons] at h; omega)
    refine ⟨toSigned16 (a % 256 + 256 * (b % 256)) :: s, ?_, ?_⟩
    · simp [bytesToSamples, hs]
    · simp only [List.length_cons, hl]; omega

theorem interp_d0 (prev cur outrate : Int) (h : outrate ≠ 0) :
    interp prev cur 0 outrate = cur := by
  unfold interp
  have e : prev * 0 + cur * (outrate - 0) = cur * outrate := by ring
  rw [e]
  exact Int.mul_tdiv_cancel cur h

theorem interp_same (v d outrate : Int) (h : outrate ≠ 0) :
    interp v v d outrate = v := by
  unfold interp
  have e : v * d + v * (outrate - d) = v * outrate := by ring
  rw [e]
  exact Int.mul_tdiv_cancel v h

theorem ratecvLoop_up_first (prev x : Int) (xs : List Int) :
    ratecvLoop 1 6 prev (-6) (x :: xs) =
      interp prev x 0 6 :: ratecvLoop 1 6 x (-1) xs := rfl

theorem ratecvLoop_up_step (prev x : Int) (xs : List Int) :
    ratecvLoop 1 6 prev (-1) (x :: xs) =
      interp prev x 5 6 :: interp prev x 4 6 :: interp prev x 3 6 ::
      interp prev x 2 6 :: interp prev x 1 6 :: interp prev x 0 6 ::
      ratecvLoop 1 6 x (-1) xs := rfl

theorem ratecvLoop_down_emit (prev x : Int) (xs : List Int) :
    ratecvLoop 6 1 prev (-1) (x :: xs) =
      interp prev x 0 1 :: ratecvLoop 6 1 x (-6) xs := rfl

theorem ratecvLoop_down_skip (prev x : Int) (xs : List Int) (k : Nat)
    (hk : 1 ≤ k) :
    ratecvLoop 6 1 prev (-1 - (k : Int)) (x :: xs) =
      ratecvLoop 6 1 x (-(k : Int)) xs := by
  simp only [ratecvLoop]
  rw [show (-1 - (k : Int) + ((1 : Nat) : Int)) = -(k : Int) by push_cast; ring]
  rw [if_neg (by omega : ¬ (0 : Int) ≤ -(k : Int))]

theorem ratecv_up_eq (s : List Int) :
    ratecv 8000 48000 s = ratecvLoop 1 6 0 (-6) s := rfl

theorem ratecv_down_eq (s : List Int) :
    ratecv 48000 8000 s = ratecvLoop 6 1 0 (-1) s := rfl

theorem ratecvLoop_up_len (xs : List Int) : ∀ prev : Int,
    (ratecvLoop 1 6 prev (-1) xs).length = 6 * xs.length := by
  induction xs with
  | nil => intro prev; rfl
  | cons x rest ih =>
    intro prev
    rw [ratecvLoop_up_step]
    simp only [List.length_cons, ih]
    omega

theorem ratecv_up_len (s : List Int) :
    (ratecv 8000 48000 s).length =
      if s.length = 0 then 0 else 6 * s.length - 5 := by
  cases s with
  | nil => rfl
  | cons x rest =>
    rw [ratecv_up_eq, ratecvLoop_up_first]
    simp only [List.length_cons, ratecvLoop_up_len]
    rw [if_neg (Nat.succ_ne_zero _)]
    omega

theorem ratecvLoop_down_len (xs : List Int) : ∀ (prev : Int) (k : Nat),
    k < 6 →
    (ratecvLoop 6 1 prev (-1 - (k : Int)) xs).length =
      (xs.length + 5 - k) / 6 := by
  induction xs with
  | nil =>
    intro prev k hk
    show (0 : Nat) = (0 + 5 - k) / 6
    omega
  | cons x rest ih =>
    intro prev k hk
    cases k with
    | zero =>
      rw [show (-1 - ((0 : Nat) : Int)) = -1 by norm_num,
        ratecvLoop_down_emit]
      have h5 := ih x 5 (by norm_num)
      rw [show (-6 : Int) = -1 - ((5 : Nat) : Int) by norm_num]
      simp only [List.length_cons, h5]
      omega
    | succ j =>
      rw [ratecvLoop_down_skip prev x rest (j + 1) (by omega)]
      rw [show (-((j + 1 : Nat) : Int)) = -1 - ((j : Nat) : Int) by
        push_cast; ring]
      rw [ih x j (by omega)]
      simp only [List.length_cons]
      omega

theorem ratecv_down_len (s : List Int) :
    (ratecv 48000 8000 s).length = (s.length + 5) / 6 := by
  rw [ratecv_down_eq,
    show (-1 : Int) = -1 - ((0 : Nat) : Int) by norm_num,
    ratecvLoop_down_len s 0 0 (by norm_num)]
  omega

theorem ratecvLoop_up_const (n : Nat) (v : Int) :
    ratecvLoop 1 6 v (-1) (List.replicate n v) = List.replicate (6 * n) v := by
  induction n with
  | zero => rfl
  | succ n ih =>
    rw [List.replicate_succ, ratecvLoop_up_step, ih]
    have h6 : (6 : Int) ≠ 0 := by norm_num
    simp only [interp_same _ _ _ h6]
    rw [show 6 * (n + 1) = 6 + 6 * n by ring, List.replicate_add]
    rfl

theorem ratecv_up_const (n : Nat) (v : Int) :
    ratecv 8000 48000 (List.replicate n v) =
      List.replicate (if n = 0 then 0 else 6 * n - 5) v := by
  cases n with
  | zero => rfl
  | succ n =>
    rw [List.replicate_succ, ratecv_up_eq, ratecvLoop_up_first,
      ratecvLoop_up_const, interp_d0 _ _ _ (by norm_num : (6 : Int) ≠ 0)]
    rw [show (if n + 1 = 0 then 0 else 6 * (n + 1) - 5) = (6 * n) + 1 by
      rw [if_neg (Nat.succ_ne_zero n)]; omega]
    rw [List.replicate_succ]

theorem ratecvLoop_down_const (n : Nat) (v : Int) : ∀ (prev : Int) (k : Nat),
    k < 6 →
    ratecvLoop 6 1 prev (-1 - (k : Int)) (List.replicate n v) =
      List.replicate ((n + 5 - k) / 6) v := by
  induction n with
  | zero =>
    intro prev k hk
    rw [show (0 + 5 - k) / 6 = 0 by omega]
    rfl
  | succ n ih =>
    intro prev k hk
    rw [List.replicate_succ]
    cases k with
    | zero =>
      rw [show (-1 - ((0 : Nat) : Int)) = -1 by norm_num,
        ratecvLoop_down_emit, interp_d0 _ _ _ (by norm_num : (1 : Int) ≠ 0),
        show (-6 : Int) = -1 - ((5 : Nat) : Int) by norm_num,
        ih v 5 (by norm_num)]
      rw [show (n + 1 + 5 - 0) / 6 = ((n + 5 - 5) / 6) + 1 by omega]
      rw [List.replicate_succ]
    | succ j =>
      rw [ratecvLoop_down_skip _ _ _ (j + 1) (by omega)]
      rw [show (-((j + 1 : Nat) : Int)) = -1 - ((j : Nat) : Int) by
        push_cast; ring]
      rw [ih v j (by omega)]
      rw [show (n + 1 + 5 - (j + 1)) / 6 = (n + 5 - j) / 6 by omega]

theorem ratecv_down_const (n : Nat) (v : Int) :
    ratecv 48000 8000 (List.replicate n v) =
      List.replicate ((n + 5) / 6) v := by
  rw [ratecv_down_eq,
    show (-1 : Int) = -1 - ((0 : Nat) : Int) by norm_num,
    ratecvLoop_down_const n v 0 0 (by norm_num)]
  rw [show (n + 5 - 0) = n + 5 by omega]

theorem roundtrip_bytes_const (n : Nat) :
    bytesToSamples (samplesToBytes (List.replicate n (-32124))) =
      .ok (List.replicate n (-32124)) := by
  induction n with
  | zero => rfl
  | succ n ih =>
    rw [show samplesToBytes (List.replicate (n + 1) (-32124)) =
        132 :: 130 :: samplesToBytes (List.replicate n (-32124)) from rfl]
    simp only [bytesToSamples, ih]
    rw [show toSigned16 (132 % 256 + 256 * (130 % 256)) = -32124 from by
      decide]
    rw [List.replicate_succ]

/-- C7: for every mu-law byte buffer, resampling 8 kHz mu-law to 48 kHz
linear PCM and back through the exact pipeline the bridge uses yields a
buffer of exactly the original length (well within the rounding error the
claim allows for), and an all-zero byte buffer round-trips to an all-zero
byte buffer. -/
theorem c7_roundtrip_length_and_silence (u : List Nat) (n : Nat) :
    (∃ v, muRoundtrip u = .ok v ∧ v.length = u.length) ∧
    muRoundtrip (List.replicate n 0) = .ok (List.replicate n 0) := by
  constructor
  · obtain ⟨s1, hs1, hl1⟩ := bytesToSamples_even (ulaw_to_pcm u)
      (by rw [ulaw_to_pcm, samplesToBytes_length]; omega)
    have hs1len : s1.length = u.length := by
      rw [ulaw_to_pcm, samplesToBytes_length, List.length_map] at hl1
      omega
    have hup : resample (ulaw_to_pcm u) 8000 48000 =
        .ok (samplesToBytes (ratecv 8000 48000 s1)) := by
      rw [resample, hs1]
    obtain ⟨s2, hs2, hl2⟩ :=
      bytesToSamples_even (samplesToBytes (ratecv 8000 48000 s1))
        (by rw [samplesToBytes_length]; omega)
    have hs2len : s2.length = (ratecv 8000 48000 s1).length := by
      rw [samplesToBytes_length] at hl2
      omega
    have hdown : resample (samplesToBytes (ratecv 8000 48000 s1)) 48000 8000 =
        .ok (samplesToBytes (ratecv 48000 8000 s2)) := by
      rw [resample, hs2]
    obtain ⟨s3, hs3, hl3⟩ :=
      bytesToSamples_even (samplesToBytes (ratecv 48000 8000 s2))
        (by rw [samplesToBytes_length]; omega)
    have hs3len : s3.length = (ratecv 48000 8000 s2).length := by
      rw [samplesToBytes_length] at hl3
      omega
    have hfin : pcm_to_ulaw (samplesToBytes (ratecv 48000 8000 s2)) =
        .ok (s3.map lin2ulaw) := by
      rw [pcm_to_ulaw, hs3]
    refine ⟨s3.map lin2ulaw, ?_, ?_⟩
    · simp only [muRoundtrip, hup, hdown, hfin]
    · have e2 : s2.length = if s1.length = 0 then 0 else 6 * s1.length - 5 := by
        rw [hs2len, ratecv_up_len]
      have e3 : s3.length = (s2.length + 5) / 6 := by
        rw [hs3len, ratecv_down_len]
      rw [List.length_map]
      by_cases h0 : s1.length = 0
      · rw [if_pos h0] at e2
        omega
      · rw [if_neg h0] at e2
        omega
  · have h1 : ulaw_to_pcm (List.replicate n 0) =
        samplesToBytes (List.replicate n (-32124)) := by
      rw [ulaw_to_pcm, List.map_replicate,
        show ulaw2lin 0 = -32124 from by decide]
    have h2 : resample (samplesToBytes (List.replicate n (-32124))) 8000 48000 =
        .ok (samplesToBytes (ratecv 8000 48000 (List.replicate n (-32124)))) := by
      rw [resample, roundtrip_bytes_const]
    set m : Nat := if n = 0 then 0 else 6 * n - 5 with hm
    have h3 : ratecv 8000 48000 (List.replicate n (-32124)) =
        List.replicate m (-32124) := ratecv_up_const n (-32124)
    have h4 : resample (samplesToBytes (List.replicate m (-32124))) 48000 8000 =
        .ok (samplesToBytes (ratecv 48000 8000 (List.replicate m (-32124)))) := by
      rw [resample, roundtrip_bytes_const]
    have h5 : ratecv 48000 8000 (List.replicate m (-32124)) =
        List.replicate n (-32124) := by
      rw [ratecv_down_const, show (m + 5) / 6 = n from by
        rw [hm]
        by_cases h0 : n = 0
        · rw [if_pos h0]; omega
        · rw [if_neg h0]; omega]
    have h6 : pcm_to_ulaw (samplesToBytes (List.replicate n (-32124))) =
        .ok (List.replicate n 0) := by
      simp only [pcm_to_ulaw, roundtrip_bytes_const, List.map_replicate,
        show lin2ulaw (-32124) = 0 from by decide]
    simp only [muRoundtrip, h1, h2, h3, h4, h5, h6]

theorem resample_ulaw_ok (bs : List Nat) :
    ∃ r, resample (ulaw_to_pcm bs) 8000 48000 = .ok r := by
  obtain ⟨s1, hs1, _⟩ := bytesToSamples_even (ulaw_to_pcm bs)
    (by rw [ulaw_to_pcm, samplesToBytes_length]; omega)
  exact ⟨_, by rw [resample, hs1]⟩

theorem handle_hume_cases (s : St) (m : HumeMsg) :
    handle_hume_message s m = (s, []) ∨
    ∃ sid mulaw, s.stream_sid = some sid ∧
      handle_hume_message s m = (s, [TwilioOut.media sid (b64encode mulaw)]) := by
  by_cases ht : m.msgType = some ("audio_output")
  · rcases hd : m.data with _ | d <;> rcases hs : s.stream_sid with _ | sid
    · left; simp [handle_hume_message, ht, hd, hs]
    · left; simp [handle_hume_message, ht, hd, hs]
    · left; simp [handle_hume_message, ht, hd, hs]
    · rcases d with bs | _
      · by_cases htr : (b64Truthy (B64.valid bs) && !(sid == "")) = true
        · rcases hres : resample bs 48000 8000 with pcm8 | _
          · rcases hu : pcm_to_ulaw pcm8 with mul | _
            · right
              refine ⟨sid, mul, rfl, ?_⟩
              simp [handle_hume_message, ht, hd, hs, htr, b64decode, hres, hu]
            · left
              simp [handle_hume_message, ht, hd, hs, htr, b64decode, hres, hu]
          · left
            simp [handle_hume_message, ht, hd, hs, htr, b64decode, hres]
        · left
          simp [handle_hume_message, ht, hd, hs, htr]
      · by_cases hsid : (sid == "") = true
        · left
          simp [handle_hume_message, ht, hd, hs, b64Truthy, hsid]
        · left
          simp [handle_hume_message, ht, hd, hs, b64Truthy, hsid, b64decode]
  · left
    simp [handle_hume_message, ht]

theorem handle_hume_state (s : St) (m : HumeMsg) :
    (handle_hume_message s m).1 = s := by
  rcases handle_hume_cases s m with h | ⟨sid, mul, hs, h⟩ <;> rw [h]

theorem handle_hume_len (s : St) (m : HumeMsg) :
    (handle_hume_message s m).2.length ≤ 1 := by
  rcases handle_hume_cases s m with h | ⟨sid, mul, hs, h⟩ <;> rw [h] <;> simp

theorem handle_hume_no_sid (s : St) (m : HumeMsg) (h : s.stream_sid = none) :
    (handle_hume_message s m).2 = [] := by
  rcases handle_hume_cases s m with h2 | ⟨sid, mul, hs, h2⟩
  · rw [h2]
  · rw [h] at hs
    exact Option.noConfusion hs

theorem handle_hume_frames_carry_sid (s : St) (m : HumeMsg) (o : TwilioOut)
    (ho : o ∈ (handle_hume_message s m).2) :
    ∃ sid p, s.stream_sid = some sid ∧ o = TwilioOut.media sid p := by
  rcases handle_hume_cases s m with h | ⟨sid, mul, hs, h⟩
  · rw [h] at ho
    simp at ho
  · rw [h] at ho
    simp at ho
    exact ⟨sid, b64encode mul, hs, ho⟩

theorem receive_hume_filterMap (s : St) (msgs : List HumeMsg) :
    receive_hume_messages s (msgs.map Fallible.ok) =
      (s, msgs.filterMap (humeFrameOut s)) := by
  induction msgs with
  | nil => rfl
  | cons m rest ih =>
    rcases handle_hume_cases s m with h | ⟨sid, mul, hs, h⟩ <;>
      simp [receive_hume_messages, ih, h, humeFrameOut, List.filterMap_cons]

theorem handle_twilio_start (s : St) (m : TwilioMsg)
    (h : m.event = some ("start")) :
    handle_twilio_message s m =
      .ok ({ s with stream_sid := m.streamSid, call_sid := m.callSid }, []) := by
  simp [handle_twilio_message, h]

theorem handle_twilio_outs_audio (s : St) (m : TwilioMsg) (s2 : St)
    (outs : List HumeOut)
    (h : handle_twilio_message s m = .ok (s2, outs)) :
    ∀ o ∈ outs, ∃ dta, o = HumeOut.audio_input dta := by
  unfold handle_twilio_message at h
  repeat' split at h
  all_goals try exact Fallible.noConfusion h
  all_goals simp only [Fallible.ok.injEq, Prod.mk.injEq] at h
  all_goals obtain ⟨h1, h2⟩ := h
  all_goals subst h2
  all_goals intro o ho
  all_goals simp at ho
  all_goals subst ho
  all_goals exact ⟨_, rfl⟩

theorem handle_twilio_nonstart_frame (s : St) (m : TwilioMsg)
    (hne : ¬ m.event = some ("start")) (s2 : St) (outs : List HumeOut)
    (h : handle_twilio_message s m = .ok (s2, outs)) :
    s2.stream_sid = s.stream_sid ∧ s2.call_sid = s.call_sid ∧
      s2.config_id = s.config_id := by
  unfold handle_twilio_message at h
  repeat' split at h
  all_goals try exact Fallible.noConfusion h
  all_goals try exact absurd (by assumption) hne
  all_goals simp only [Fallible.ok.injEq, Prod.mk.injEq] at h
  all_goals obtain ⟨h1, h2⟩ := h
  all_goals subst h1
  all_goals simp

theorem handle_twilio_media_ok (s : St) (m : TwilioMsg)
    (hm : m.event = some ("media")) (hp : decodablePayload m) :
    ∃ outs, handle_twilio_message s m = .ok (s, outs) ∧ outs.length ≤ 1 := by
  rcases hpay : m.payload with _ | p
  · exact ⟨[], by simp [handle_twilio_message, hm, hpay], by simp⟩
  · rcases p with bs | _
    · by_cases htr : (b64Truthy (B64.valid bs) && s.hume_connected) = true
      · obtain ⟨r, hr⟩ := resample_ulaw_ok bs
        refine ⟨[.audio_input (b64encode r)], ?_, by simp⟩
        simp [handle_twilio_message, hm, hpay, htr, b64decode, hr]
      · exact ⟨[], by simp [handle_twilio_message, hm, hpay, htr], by simp⟩
    · exact absurd rfl (hp B64.malformed hpay)

theorem runLoop_not_running (s : St) (evs : List TwRecv)
    (h : ¬ s.running = true) : runLoop s evs = (s, []) := by
  cases evs with
  | nil => rfl
  | cons e rest => simp [runLoop, h]

theorem runLoop_timeout (s : St) (rest : List TwRecv) (h : s.running = true) :
    runLoop s (.timeout :: rest) = runLoop s rest := by
  simp [runLoop, h]

theorem runLoop_exn_msg (s : St) (rest : List TwRecv) (h : s.running = true) :
    runLoop s (.msg .exn :: rest) = (s, []) := by
  simp [runLoop, h]

theorem runLoop_handler_exn (s : St) (m : TwilioMsg) (rest : List TwRecv)
    (h : s.running = true) (hh : handle_twilio_message s m = .exn) :
    runLoop s (.msg (.ok m) :: rest) = (s, []) := by
  simp [runLoop, h, hh]

theorem runLoop_ok_step (s : St) (m : TwilioMsg) (rest : List TwRecv)
    (s2 : St) (outs : List HumeOut) (h : s.running = true)
    (hh : handle_twilio_message s m = .ok (s2, outs)) :
    runLoop s (.msg (.ok m) :: rest) =
      ((runLoop s2 rest).1, outs ++ (runLoop s2 rest).2) := by
  simp [runLoop, h, hh]

theorem runLoop_all_timeout (evs : List TwRecv) : ∀ s : St,
    (∀ e ∈ evs, e = .timeout) → runLoop s evs = (s, []) := by
  induction evs with
  | nil => intro s _; rfl
  | cons e rest ih =>
    intro s hall
    have he : e = .timeout := hall e (by simp)
    subst he
    by_cases hr : s.running = true
    · rw [runLoop_timeout s rest hr]
      exact ih s (fun e h => hall e (by simp [h]))
    · exact runLoop_not_running s _ hr

theorem runLoop_outs_audio (evs : List TwRecv) : ∀ (s : St) (o : HumeOut),
    o ∈ (runLoop s evs).2 → ∃ dta, o = HumeOut.audio_input dta := by
  induction evs with
  | nil =>
    intro s o ho
    simp [runLoop] at ho
  | cons e rest ih =>
    intro s o ho
    by_cases hr : s.running = true
    · rcases e with w | _ | _
      · rcases w with m | _
        · rcases hh : handle_twilio_message s m with ⟨s2, outs⟩ | _
          · rw [runLoop_ok_step s m rest s2 outs hr hh] at ho
            rcases List.mem_append.1 ho with hin | hin
            · exact handle_twilio_outs_audio s m s2 outs hh o hin
            · exact ih s2 o hin
          · rw [runLoop_handler_exn s m rest hr hh] at ho
            simp at ho
        · rw [runLoop_exn_msg s rest hr] at ho
          simp at ho
      · rw [runLoop_timeout s rest hr] at ho
        exact ih s o ho
      · simp [runLoop, hr] at ho
    · rw [runLoop_not_running s _ hr] at ho
      simp at ho

theorem runLoop_media_seq (tmsgs : List TwilioMsg) : ∀ s : St,
    s.running = true →
    (∀ m ∈ tmsgs, m.event = some ("media") ∧ decodablePayload m) →
    runLoop s (tmsgs.map (fun m => TwRecv.msg (Fallible.ok m))) =
      (s, tmsgs.filterMap (twFrameOut s)) := by
  induction tmsgs with
  | nil => intro s _ _; rfl
  | cons m rest ih =>
    intro s hr hall
    obtain ⟨hm, hp⟩ := hall m (by simp)
    obtain ⟨outs, hok, hlen⟩ := handle_twilio_media_ok s m hm hp
    rw [List.map_cons, runLoop_ok_step s m _ s outs hr hok,
      ih s hr (fun x hx => hall x (by simp [hx]))]
    have hfr : twFrameOut s m = outs.head? := by
      rw [twFrameOut, hok]
    rcases outs with _ | ⟨o, tl⟩
    · simp [List.filterMap_cons, hfr]
    · rcases tl with _ | _
      · simp [List.filterMap_cons, hfr]
      · simp at hlen

theorem handle_twilio_len (s : St) (m : TwilioMsg) (s2 : St)
    (outs : List HumeOut)
    (h : handle_twilio_message s m = .ok (s2, outs)) : outs.length ≤ 1 := by
  unfold handle_twilio_message at h
  repeat' split at h
  all_goals try exact Fallible.noConfusion h
  all_goals simp only [Fallible.ok.injEq, Prod.mk.injEq] at h
  all_goals obtain ⟨h1, h2⟩ := h
  all_goals subst h2
  all_goals simp

theorem decodablePayload_of_valid (m : TwilioMsg) (bs : List Nat)
    (h : m.payload = some (B64.valid bs)) : decodablePayload m := by
  intro p hp
  rw [h] at hp
  injection hp with hh
  rw [← hh]
  intro hc
  exact B64.noConfusion hc

/-- C1: an AI audio_output message produces an outbound telephony media
frame only when stream_sid is set: with no stream_sid the handler returns
normally with the state unchanged and sends nothing, and every frame that
is sent carries the session stream_sid. -/
theorem c1_audio_frames_require_sid (s : St) (m : HumeMsg) :
    (s.stream_sid = none → handle_hume_message s m = (s, [])) ∧
    (∀ o ∈ (handle_hume_message s m).2,
      ∃ sid p, s.stream_sid = some sid ∧ o = TwilioOut.media sid p) := by
  constructor
  · intro h
    rcases handle_hume_cases s m with hc | ⟨sid, mul, hs, hc⟩
    · exact hc
    · rw [h] at hs
      exact Option.noConfusion hs
  · exact handle_hume_frames_carry_sid s m

/-- C1 witness: with no stream_sid an audio_output frame is dropped; with
stream_sid MZ1 the emitted frame carries MZ1. -/
theorem c1_witness :
    (handle_hume_message stNoSid msgAudioGood = (stNoSid, [])) ∧
    ∃ sid p, stMZ.stream_sid = some sid ∧
      TwilioOut.media ("MZ1") (b64encode [255]) = TwilioOut.media sid p := by
  refine ⟨(c1_audio_frames_require_sid stNoSid msgAudioGood).1 rfl, ?_⟩
  exact (c1_audio_frames_require_sid stMZ msgAudioGood).2
    (TwilioOut.media ("MZ1") (b64encode [255])) (by decide)

/-- C2 counterexample: a decode failure is not skipped.  On the AI side a
malformed JSON message ends the receive loop, so a valid audio_output
queued right after it is never forwarded; on the telephony side a
malformed JSON text breaks the main loop, so a valid media frame queued
right after it is never forwarded.  Under the claim both second frames
would have been forwarded. -/
theorem c2_counterexample :
    (receive_hume_messages stMZ [.exn, .ok msgAudioGood]).2 = [] ∧
    (receive_hume_messages stMZ [.ok msgAudioGood]).2 =
      [TwilioOut.media ("MZ1") (b64encode [255])] ∧
    (runLoop stMZ [.msg .exn, .msg (.ok mediaGood)]).2 = [] ∧
    (runLoop stMZ [.msg (.ok mediaGood)]).2 =
      [HumeOut.audio_input (b64encode [132, 130])] := by
  decide

/-- C2 amended: a decode failure terminates the receiving loop instead of
being skipped.  On the AI side the loop ends at the malformed message with
the state unchanged and no further output; on the telephony side the main
loop breaks at the malformed text, ending the session with the state
unchanged and no further output. -/
theorem c2_decode_failure_breaks_loop (s : St) (rest : List (Fallible HumeMsg))
    (evs : List TwRecv) (h : s.running = true) :
    receive_hume_messages s (.exn :: rest) = (s, []) ∧
    runLoop s (.msg .exn :: evs) = (s, []) :=
  ⟨rfl, runLoop_exn_msg s evs h⟩

/-- C2 witness: the amended claim at a running session with one malformed
message on each side. -/
theorem c2_witness :
    receive_hume_messages stMZ [.exn] = (stMZ, []) ∧
    runLoop stMZ [.msg .exn] = (stMZ, []) :=
  c2_decode_failure_breaks_loop stMZ [] [] rfl

/-- C3 counterexample: the session does emit outbound traffic before any
start event (the one-time session_settings message on the AI socket), and
an idle timeout does not terminate the loop: a start event arriving after
a timeout is still processed. -/
theorem c3_counterexample :
    Act.humeSend sessionSettingsMsg ∈ (run ("") true [TwRecv.timeout]).1 ∧
    (run ("") true [TwRecv.timeout, TwRecv.msg (.ok startMsg)]).2.stream_sid =
      some ("MZ1") := by
  decide

/-- C3 amended: an idle timeout on the telephony receive is a no-op
continuation, not a termination; a session seeing only timeouts (hence no
start event) forwards no audio in either direction and its only outbound
message is the one-time session_settings negotiation sent at connect. -/
theorem c3_timeout_is_noop (cfg : String) (s : St) (rest evs : List TwRecv)
    (h : s.running = true) (hall : ∀ e ∈ evs, e = TwRecv.timeout) :
    runLoop s (.timeout :: rest) = runLoop s rest ∧
    run cfg true evs =
      ([Act.humeConnect, Act.humeSend sessionSettingsMsg, Act.twilioAccept],
        { initSt cfg with hume_connected := true, running := true }) := by
  refine ⟨runLoop_timeout s rest h, ?_⟩
  have hto := runLoop_all_timeout evs
    { initSt cfg with hume_connected := true, running := true } hall
  simp [run, hto]

/-- C3 witness: the amended claim at a running session and a single
timeout event. -/
theorem c3_witness :
    runLoop stMZ [TwRecv.timeout] = runLoop stMZ [] ∧
    run ("") true [TwRecv.timeout] =
      ([Act.humeConnect, Act.humeSend sessionSettingsMsg, Act.twilioAccept],
        { initSt ("") with hume_connected := true, running := true }) :=
  c3_timeout_is_noop ("") stMZ [] [TwRecv.timeout] rfl
    (by intro e he; simp at he; exact he)

/-- C4: when the AI connection attempt fails the run returns with an empty
action trace, in particular without ever accepting the telephony socket;
when it succeeds the trace starts with the AI connect, then the settings
send, then the telephony accept, so the AI connection strictly precedes
the accept. -/
theorem c4_connect_before_accept (cfg : String) (evs : List TwRecv) :
    (run cfg false evs).1 = [] ∧
    Act.twilioAccept ∉ (run cfg false evs).1 ∧
    (run cfg true evs).1.take 3 =
      [Act.humeConnect, Act.humeSend sessionSettingsMsg, Act.twilioAccept] := by
  refine ⟨rfl, by simp [run], ?_⟩
  simp [run]

/-- C5: every successful session sends the linear16 / 48000 / 1 settings
message exactly once, immediately after the AI connect and before the
telephony accept, hence before any forwarded audio frame; everything the
telephony loop sends afterwards is an audio_input frame. -/
theorem c5_settings_once (cfg : String) (evs : List TwRecv) :
    ∃ outs : List HumeOut,
      (run cfg true evs).1 =
        Act.humeConnect :: Act.humeSend sessionSettingsMsg ::
          Act.twilioAccept :: outs.map Act.humeSend ∧
      (∀ o ∈ outs, ∃ dta, o = HumeOut.audio_input dta) ∧
      (run cfg true evs).1.count (Act.humeSend sessionSettingsMsg) = 1 := by
  refine ⟨(runLoop { initSt cfg with hume_connected := true, running := true }
    evs).2, rfl, ?_, ?_⟩
  · intro o ho
    exact runLoop_outs_audio evs _ o ho
  · have hzero :
        ((runLoop { initSt cfg with hume_connected := true, running := true }
          evs).2.map Act.humeSend).count (Act.humeSend sessionSettingsMsg) = 0 := by
      rw [List.count_eq_zero]
      intro hmem
      rcases List.mem_map.1 hmem with ⟨o, ho, heq⟩
      obtain ⟨dta, rfl⟩ := runLoop_outs_audio evs _ o ho
      simp [sessionSettingsMsg] at heq
    rw [show (run cfg true evs).1 =
        Act.humeConnect :: Act.humeSend sessionSettingsMsg ::
          Act.twilioAccept ::
          (runLoop { initSt cfg with hume_connected := true, running := true }
            evs).2.map Act.humeSend from rfl]
    simp only [List.count_cons, hzero]
    decide

/-- C6 counterexample: a telephony-side frame whose payload fails to
decode does not merely drop that frame: the session loop breaks, so a
valid media frame queued right after it is never forwarded, where the
claim says the session continues running. -/
theorem c6_counterexample :
    (runLoop stNoSid [.msg (.ok mediaBad), .msg (.ok mediaGood)]).2 = [] ∧
    (runLoop stNoSid [.msg (.ok mediaGood)]).2 =
      [HumeOut.audio_input (b64encode [132, 130])] := by
  decide

/-- C6 amended: the per-frame recovery holds only in the AI to telephony
direction, where the conversion sits in a try/except: the bad frame is
dropped, the state is unchanged and the AI receive loop continues.  In the
telephony to AI direction a frame whose payload fails to decode raises out
of the handler; the main loop catches and logs it and breaks, terminating
the session. -/
theorem c6_transcode_error_direction_split (s : St) (evs : List TwRecv)
    (rest : List (Fallible HumeMsg)) (h : s.running = true)
    (hc : s.hume_connected = true) :
    handle_hume_message s msgAudioBad = (s, []) ∧
    receive_hume_messages s (.ok msgAudioBad :: rest) =
      receive_hume_messages s rest ∧
    handle_twilio_message s mediaBad = .exn ∧
    runLoop s (.msg (.ok mediaBad) :: evs) = (s, []) := by
  have h1 : handle_hume_message s msgAudioBad = (s, []) := by
    rcases hs : s.stream_sid with _ | sid
    · simp [handle_hume_message, msgAudioBad, hs]
    · by_cases hsid : (sid == "") = true <;>
        simp [handle_hume_message, msgAudioBad, hs, b64Truthy, hsid, b64decode]
  have h3 : handle_twilio_message s mediaBad = .exn := by
    simp [handle_twilio_message, mediaBad, b64Truthy, hc, b64decode]
  refine ⟨h1, ?_, h3, runLoop_handler_exn s mediaBad evs h h3⟩
  show (let r := handle_hume_message s msgAudioBad
        let r2 := receive_hume_messages r.1 rest
        (r2.1, r.2 ++ r2.2)) = receive_hume_messages s rest
  rw [h1]
  rfl

/-- C6 witness: the amended claim at a running connected session. -/
theorem c6_witness :
    handle_hume_message stMZ msgAudioBad = (stMZ, []) ∧
    receive_hume_messages stMZ [.ok msgAudioBad] =
      receive_hume_messages stMZ [] ∧
    handle_twilio_message stMZ mediaBad = .exn ∧
    runLoop stMZ [.msg (.ok mediaBad)] = (stMZ, []) :=
  c6_transcode_error_direction_split stMZ [] [] rfl rfl

/-- C8: within one direction forwarded audio frames appear in receipt
order, each handled message contributing its own frame in place and at
most one frame, with no reordering and no batching: the forwarded output
of a message sequence is the filterMap of the per-message frame function
over the sequence, on the AI side for arbitrary well-formed messages and
on the telephony side for media sequences whose payloads decode. -/
theorem c8_frames_in_receipt_order (s : St) (msgs : List HumeMsg)
    (tmsgs : List TwilioMsg) (hr : s.running = true)
    (hmedia : ∀ m ∈ tmsgs, m.event = some ("media") ∧ decodablePayload m) :
    receive_hume_messages s (msgs.map Fallible.ok) =
      (s, msgs.filterMap (humeFrameOut s)) ∧
    (∀ m, (handle_hume_message s m).2.length ≤ 1) ∧
    runLoop s (tmsgs.map (fun m => TwRecv.msg (Fallible.ok m))) =
      (s, tmsgs.filterMap (twFrameOut s)) ∧
    (∀ m s2 outs, handle_twilio_message s m = .ok (s2, outs) →
      outs.length ≤ 1) := by
  refine ⟨receive_hume_filterMap s msgs, fun m => handle_hume_len s m,
    runLoop_media_seq tmsgs s hr hmedia,
    fun m s2 outs hok => handle_twilio_len s m s2 outs hok⟩

/-- C8 witness: the order-preservation equations at a session with a
stream_sid, one AI audio_output message and one telephony media frame. -/
theorem c8_witness :
    receive_hume_messages stMZ ([msgAudioGood].map Fallible.ok) =
      (stMZ, [msgAudioGood].filterMap (humeFrameOut stMZ)) ∧
    runLoop stMZ ([mediaGood].map (fun m => TwRecv.msg (Fallible.ok m))) =
      (stMZ, [mediaGood].filterMap (twFrameOut stMZ)) := by
  have h := c8_frames_in_receipt_order stMZ [msgAudioGood] [mediaGood] rfl
    (by
      intro m hm
      simp at hm
      subst hm
      exact ⟨rfl, decodablePayload_of_valid mediaGood [0] rfl⟩)
  exact ⟨h.1, h.2.2.1⟩

/-- C9 counterexample: a media event received before any start event can
crash the handler and end the session: with an undecodable payload the
handler raises, the main loop breaks, and a start event queued right
after it is never processed, where the claim says handling is total and
the session stays able to process subsequent messages. -/
theorem c9_counterexample :
    stNoSid.stream_sid = none ∧
    handle_twilio_message stNoSid mediaBad = Fallible.exn ∧
    (runLoop stNoSid [.msg (.ok mediaBad), .msg (.ok startMsg)]).1.stream_sid =
      none := by
  decide

/-- C9 amended: a media event received before any start event whose
payload is absent or decodes is handled totally, with the state unchanged,
so the session processes subsequent messages exactly as before; the
handler never reads stream_sid in the media path, so the absence of a
start event can never cause a fault, but an undecodable payload raises
(before or after start alike) and ends the session. -/
theorem c9_media_before_start (s : St) (m : TwilioMsg)
    (hsid : s.stream_sid = none) (hm : m.event = some ("media"))
    (hp : decodablePayload m) :
    ∃ outs, handle_twilio_message s m = .ok (s, outs) := by
  obtain ⟨outs, hok, _⟩ := handle_twilio_media_ok s m hm hp
  exact ⟨outs, hok⟩

/-- C9 witness: the amended claim at a session with no stream_sid and a
decodable media frame. -/
theorem c9_witness :
    ∃ outs, handle_twilio_message stNoSid mediaGood = .ok (stNoSid, outs) :=
  c9_media_before_start stNoSid mediaGood rfl rfl
    (decodablePayload_of_valid mediaGood [0] rfl)

/-- C10: only a start event writes the stream and call identifiers: a
non-start telephony message that is handled without an exception leaves
stream_sid, call_sid and config_id unchanged, and an AI-side message of
any type leaves the whole session state unchanged. -/
theorem c10_only_start_writes_ids (s : St) (m : TwilioMsg) (hm : HumeMsg)
    (s2 : St) (outs : List HumeOut)
    (hne : ¬ m.event = some ("start"))
    (h : handle_twilio_message s m = .ok (s2, outs)) :
    s2.stream_sid = s.stream_sid ∧ s2.call_sid = s.call_sid ∧
      s2.config_id = s.config_id ∧ (handle_hume_message s hm).1 = s := by
  obtain ⟨h1, h2, h3⟩ := handle_twilio_nonstart_frame s m hne s2 outs h
  exact ⟨h1, h2, h3, handle_hume_state s hm⟩

/-- C10 witness: the frame conditions at a stop event and an audio_output
message. -/
theorem c10_witness :
    ({ stMZ with running := false }).stream_sid = stMZ.stream_sid ∧
    ({ stMZ with running := false }).call_sid = stMZ.call_sid ∧
    ({ stMZ with running := false }).config_id = stMZ.config_id ∧
    (handle_hume_message stMZ msgAudioGood).1 = stMZ :=
  c10_only_start_writes_ids stMZ stopMsg msgAudioGood
    ({ stMZ with running := false }) [] (by decide) (by decide)
